import Mathlib

/-!
# Verification of the `trommons_importer` directory-change watcher core

Shallow embedding of `src/trommons_checker.py` (classes `ChangeMonitor` and
`Runner`), faithful to the Python 2 source:

* `fnmatch` models the stdlib `fnmatch.fnmatch` glob matcher used by
  `ChangeMonitor.is_white_listed` — shell-style patterns with `*`, `?` and
  `[...]` character classes, anchored at both ends.  (The Python-regex quirk
  that `$` also matches before one trailing newline is not modelled; no claim
  involves newlines.)
* `pyJoin` models `os.path.join` (POSIX flavour) on two string arguments.
* The watch registry `ChangeMonitor.watches` is a dict from inotify watch
  descriptors to absolute paths; it is embedded as an association list with
  dict-faithful lookup/insert/pop.  `inotifyx.add_watch` issues an opaque
  fresh descriptor; this is modelled by a monotone counter `nextWd` threaded
  through event processing.
* Raw inotify events carry `(wd, name, mask)`; the mask bits inspected by the
  source (`IN_ISDIR`, `IN_CREATE`, `IN_DELETE_SELF`) are embedded as three
  booleans.  `event.name` may be `None` in Python; both `None` and `''` are
  falsy and the source only uses `not name` and `name or ''`, so `None` is
  embedded as `""`.
* Fallible steps return `Option`: `none` models an uncaught Python exception
  (in particular `os.path.join(None, name)` raised by line 114 of the source
  when a directory-creation event's parent descriptor is no longer in
  `watches`, since that lookup has no default).
-/

namespace TrommonsChecker

/-! ## `fnmatch` glob matching (model of the Python stdlib matcher) -/

/-- Scan a pattern for the `]` that closes a character class; returns the
class contents and the remainder of the pattern, or `none` when the class is
unterminated (in which case `[` is a literal, as in `fnmatch.translate`). -/
def findClose : List Char → Option (List Char × List Char)
  | [] => none
  | ']' :: rest => some ([], rest)
  | c :: rest => (findClose rest).map (fun r => (c :: r.1, r.2))

/-- Parse the body of a `[...]` class (input starts after `[`): an optional
leading `!` negates, and a `]` first in the class is a literal member, exactly
as in `fnmatch.translate`. -/
def parseClass (l : List Char) : Option (Bool × List Char × List Char) :=
  match l with
  | '!' :: l1 =>
    match l1 with
    | ']' :: r2 => (findClose r2).map (fun x => (true, ']' :: x.1, x.2))
    | _ => (findClose l1).map (fun x => (true, x.1, x.2))
  | _ =>
    match l with
    | ']' :: r2 => (findClose r2).map (fun x => (false, ']' :: x.1, x.2))
    | _ => (findClose l).map (fun x => (false, x.1, x.2))

/-- Membership of a character in the contents of a character class,
supporting `a-z` ranges; a `-` first or last in the class is a literal. -/
def classMatch (c : Char) : List Char → Bool
  | [] => false
  | [a] => a == c
  | [a, b] => a == c || b == c
  | a :: '-' :: b :: rest => (a ≤ c && c ≤ b) || classMatch c rest
  | a :: rest => a == c || classMatch c rest

/-- Fuel-indexed glob matcher: `*` matches any sequence, `?` any single
character, `[...]` a character class, everything else itself.  Each recursive
call shrinks `pattern.length + s.length`, so fuel `≥ pattern.length +
s.length + 1` is always sufficient. -/
def globMatchF : Nat → List Char → List Char → Bool
  | 0, _, _ => false
  | fuel + 1, p, s =>
    match p with
    | [] => s.isEmpty
    | '*' :: ps =>
      match s with
      | [] => globMatchF fuel ps []
      | c :: s' => globMatchF fuel ps (c :: s') || globMatchF fuel ('*' :: ps) s'
    | '?' :: ps =>
      match s with
      | [] => false
      | _ :: s' => globMatchF fuel ps s'
    | '[' :: ps =>
      match parseClass ps with
      | none =>
        match s with
        | [] => false
        | c :: s' => c == '[' && globMatchF fuel ps s'
      | some (neg, cls, rest) =>
        match s with
        | [] => false
        | c :: s' => (classMatch c cls != neg) && globMatchF fuel rest s'
    | a :: ps =>
      match s with
      | [] => false
      | c :: s' => a == c && globMatchF fuel ps s'

/-- Model of `fnmatch name pat`: does `name` match the shell glob `pat`
(anchored at both ends, case-sensitive as on Linux)? -/
def fnmatch (name pat : String) : Bool :=
  globMatchF (pat.data.length + name.data.length + 1) pat.data name.data

/-! ## `ChangeMonitor.is_white_listed` (source lines 134–153) -/

/-- Direct translation of `ChangeMonitor.is_white_listed`: empty (or absent)
names are in; any white-list match is in; otherwise any black-list match is
out; otherwise in. -/
def is_white_listed (white_list black_list : List String) (name : String) : Bool :=
  if name = "" then true
  else if white_list.any (fun pat => fnmatch name pat) then true
  else if black_list.any (fun pat => fnmatch name pat) then false
  else true

/-! ## `os.path.join` on two arguments (POSIX) -/

/-- Model of `s.startswith('/')`. -/
def startsWithSlash (s : String) : Bool :=
  match s.data with
  | [] => false
  | c :: _ => c == '/'

/-- Model of `s.endswith('/')`. -/
def endsWithSlash (s : String) : Bool :=
  match s.data.getLast? with
  | none => false
  | some c => c == '/'

/-- Model of `posixpath.join a b`. -/
def pyJoin (a b : String) : String :=
  if startsWithSlash b then b
  else if a = "" || endsWithSlash a then a ++ b
  else a ++ "/" ++ b

/-! ## Raw inotify events and the watch registry -/

/-- One raw inotify event as consumed by the source: the watch descriptor it
was delivered on, its entry name (`""` embeds Python's `None`), and the mask
bits the source inspects. -/
structure RawEvent where
  wd : Nat
  name : String
  isDir : Bool
  isCreate : Bool
  isDeleteSelf : Bool
  deriving DecidableEq, Repr

/-- The `ChangeMonitor.watches` dict, watch descriptor → absolute path. -/
abbrev Registry := List (Nat × String)

/-- Lookup `watches.get(k)`: first entry with key `k`, if any. -/
def rlookup : Registry → Nat → Option String
  | [], _ => none
  | (k, v) :: rest, x => if x = k then some v else rlookup rest x

/-- Pop `watches.pop(k, None)`: drop every entry with key `k` (a dict holds at
most one; dropping an absent key is a no-op). -/
def rerase (w : Registry) (k : Nat) : Registry :=
  w.filter (fun p => p.1 != k)

/-- Assignment `watches[k] = v`: bind `k` to `v`, replacing any previous binding. -/
def rinsert (w : Registry) (k : Nat) (v : String) : Registry :=
  (k, v) :: rerase w k

/-! ## Registry mutation per event (source lines 112–116)

The loop `for event in events:` adds a watch for each directory-creation
event (line 114: `self.watches[inotifyx.add_watch(fd, join(watches.get(wd),
name))] = join(watches.get(wd), name)` — note the defaultless `get`, which
yields `None` and makes `os.path.join` raise when the descriptor is absent)
and pops the descriptor of each self-deletion event (line 116).
`inotifyx.add_watch` is modelled as issuing the next fresh descriptor from
the monotone counter `ctr`. -/

/-- One iteration of the watch-maintenance loop.  `none` models the
`AttributeError` raised by `os.path.join(None, name)` when a
directory-creation event's parent descriptor has no entry. -/
def stepEvent (w : Registry) (ctr : Nat) (e : RawEvent) : Option (Registry × Nat) :=
  if e.isDir && e.isCreate then
    match rlookup w e.wd with
    | none => none
    | some p => some (rinsert w ctr (pyJoin p e.name), ctr + 1)
  else if e.isDeleteSelf then some (rerase w e.wd, ctr)
  else some (w, ctr)

/-- The whole watch-maintenance loop over a batch, in delivery order. -/
def stepEvents : Registry → Nat → List RawEvent → Option (Registry × Nat)
  | w, ctr, [] => some (w, ctr)
  | w, ctr, e :: es =>
    match stepEvent w ctr e with
    | none => none
    | some (w', ctr') => stepEvents w' ctr' es

/-- The absolute path attributed to one event (source lines 119–120):
`os.path.join(self.watches.get(event.wd, ''), event.name or '')`. -/
def changePath (w : Registry) (e : RawEvent) : String :=
  pyJoin ((rlookup w e.wd).getD "") e.name

/-- The guarded body of `ChangeMonitor.__iter__` on one batch (source lines
107–122): filter the batch by leaf name, run the watch-maintenance loop, then
compute the deduplicated change set against the updated registry.
`none` models the uncaught exception from line 114. -/
def processBatch (white_list black_list : List String) (w : Registry) (ctr : Nat)
    (events : List RawEvent) : Option (Registry × Nat × List String) :=
  let evs := events.filter (fun e => is_white_listed white_list black_list e.name)
  match stepEvents w ctr evs with
  | none => none
  | some (w', ctr') => some (w', ctr', (evs.map (changePath w')).dedup)

/-! ## Event collection and debounce (source lines 95–105) -/

/-- The observable actions of the event-collection prologue of `__iter__`:
the blocking `get_events(fd)`, the `time.sleep(delay)`, and the non-blocking
`get_events(fd, 0)` drain. -/
inductive CollectorAction where
  | blockingRead
  | sleepFor (d : Rat)
  | drainRead
  deriving DecidableEq, Repr

/-- The sequence of collection actions performed per batch: block, then — if
`delay` is truthy (`if self.delay:`) — sleep once and drain once. -/
def collectorTrace (delay : Rat) : List CollectorAction :=
  CollectorAction.blockingRead ::
    (if delay ≠ 0 then [CollectorAction.sleepFor delay, CollectorAction.drainRead] else [])

/-- The batch assembled per wake-up: the blocking read's events, extended by
the debounce drain's events exactly when `delay` is truthy. -/
def collectBatch (delay : Rat) (blocking debPending : List RawEvent) : List RawEvent :=
  blocking ++ (if delay ≠ 0 then debPending else [])

/-! ## The monitor as a state machine -/

/-- The mutable state of a `ChangeMonitor`: its configuration, the watches
dict, and the next fresh descriptor the notification mechanism will issue. -/
structure MonState where
  white_list : List String
  black_list : List String
  delay : Rat
  watches : Registry
  nextWd : Nat
  deriving DecidableEq, Repr

/-- Model of `ChangeMonitor.monitor_count` (source line 85): `len(self.watches)`. -/
def monitor_count (s : MonState) : Nat :=
  s.watches.length

/-- One iteration of the `while True:` loop in `__iter__` (source lines
95–122), its inputs being the events returned by the blocking read and by the
debounce drain.  Result: `none` = uncaught exception; `some (s', none)` = no
event survived the filter, nothing yielded; `some (s', some cs)` = the change
set `cs` was yielded. -/
def iterStep (s : MonState) (blocking debPending : List RawEvent) :
    Option (MonState × Option (List String)) :=
  let events := collectBatch s.delay blocking debPending
  if (events.filter (fun e => is_white_listed s.white_list s.black_list e.name)).isEmpty then
    some (s, none)
  else
    match processBatch s.white_list s.black_list s.watches s.nextWd events with
    | none => none
    | some (w', ctr', cs) => some ({ s with watches := w', nextWd := ctr' }, some cs)

/-- Model of `ChangeMonitor.clear` (source lines 124–132): one non-blocking drain,
filtered and deduplicated against the current registry; the method only reads
`self.watches`, so the returned state is the input state. -/
def clear (s : MonState) (pending : List RawEvent) : MonState × List String :=
  (s,
    ((pending.filter (fun e => is_white_listed s.white_list s.black_list e.name)).map
        (changePath s.watches)).dedup)

/-- The change sets yielded by the monitor across a sequence of loop
iterations (each element: blocking events, debounce-drain events).  `none`
models the generator dying on an uncaught exception. -/
def monitorYields : MonState → List (List RawEvent × List RawEvent) → Option (List (List String))
  | _, [] => some []
  | s, bd :: rest =>
    match iterStep s bd.1 bd.2 with
    | none => none
    | some (s', none) => monitorYields s' rest
    | some (s', some cs) => (monitorYields s' rest).map (fun l => cs :: l)

/-! ## The `Runner` (source lines 156–190) -/

/-- Observable interactions of a run: the `reporter.monitor_count`,
`reporter.begin_run` and `reporter.end_run` calls, and each handler
invocation `self.function(change)`. -/
inductive RunEvent where
  | monitorCount (n : Nat)
  | beginRun (cs : List String)
  | invoke (c : String)
  | endRun (ignored : List String)
  deriving DecidableEq, Repr

/-- The `for change in change_set: self.function(change)` loop: invocations
in order, stopping at the first handler exception, which propagates (there is
no `try` in `Runner.do_run`). -/
def runLoop (f : String → Except ε Unit) : List String → List RunEvent × Option ε
  | [] => ([], none)
  | c :: cs =>
    match f c with
    | Except.error e => ([RunEvent.invoke c], some e)
    | Except.ok _ =>
      let r := runLoop f cs
      (RunEvent.invoke c :: r.1, r.2)

/-- Model of `Runner.do_run` (source lines 169–176): `begin_run`, the handler loop,
then — only if no handler raised — the optional `clear` drain and `end_run`.
`runPending` is what `get_events(fd, 0)` returns inside `clear`.  The second
component is the exception propagating out of `do_run`, if any. -/
def do_run (f : String → Except ε Unit) ( ignore_events : Bool) (s : MonState)
    (runPending : List RawEvent) (change_set : List String) : List RunEvent × Option ε :=
  let r := runLoop f change_set
  match r.2 with
  | some e => (RunEvent.beginRun change_set :: r.1, some e)
  | none =>
    let ignored := if ignore_events then (clear s runPending).2 else []
    (RunEvent.beginRun change_set :: r.1 ++ [RunEvent.endRun ignored], none)

/-- The environment's inputs for one iteration of the monitor loop: the
events answered to the blocking read, to the debounce drain, and to the
`clear` drain after the handler loop. -/
structure CycleInput where
  blocking : List RawEvent
  debPending : List RawEvent
  runPending : List RawEvent
  deriving Repr

/-- The `for change_set in self.change_monitor: self.do_run(change_set)` loop
(source lines 189–190) over a finite prefix of the environment's inputs.
`none` = the monitor raised; `some (t, some e)` = a handler exception `e`
escaped after trace `t` (ending the loop); `some (t, none)` = all supplied
iterations processed. -/
def runCycles (f : String → Except ε Unit) ( ignore_events : Bool) :
    MonState → List CycleInput → Option (List RunEvent × Option ε)
  | _, [] => some ([], none)
  | s, cyc :: rest =>
    match iterStep s cyc.blocking cyc.debPending with
    | none => none
    | some (s', none) => runCycles f ignore_events s' rest
    | some (s', some cs) =>
      let r := do_run f ignore_events s' cyc.runPending cs
      match r.2 with
      | some e => some (r.1, some e)
      | none => (runCycles f ignore_events s' rest).map (fun t => (r.1 ++ t.1, t.2))

/-- Model of `Runner.main_loop` (source lines 178–190): report the monitor count, do
the initial run unless `no_initial_run`, then iterate the monitor. -/
def main_loop (f : String → Except ε Unit) ( ignore_events no_initial_run : Bool)
    (s : MonState) (initPending : List RawEvent) (cycles : List CycleInput) :
    Option (List RunEvent × Option ε) :=
  let head := RunEvent.monitorCount (monitor_count s)
  if no_initial_run then
    (runCycles f ignore_events s cycles).map (fun r => (head :: r.1, r.2))
  else
    let r0 := do_run f ignore_events s initPending []
    match r0.2 with
    | some e => some (head :: r0.1, some e)
    | none => (runCycles f ignore_events s cycles).map (fun r => (head :: r0.1 ++ r.1, r.2))

/-! ## Registry lemmas -/

theorem rlookup_rerase (w : Registry) (k x : Nat) :
    rlookup (rerase w k) x = if x = k then none else rlookup w x := by
  induction w with
  | nil => simp [rerase, rlookup]
  | cons hd tl ih =>
    obtain ⟨a, b⟩ := hd
    simp only [rerase, List.filter_cons] at ih ⊢
    by_cases hak : a = k
    · subst hak
      simp only [bne_self_eq_false, Bool.false_eq_true, if_false, ih, rlookup]
      by_cases hxa : x = a <;> simp [hxa]
    · have : (a != k) = true := by simpa using hak
      simp only [this, if_true, rlookup, ih]
      by_cases hxa : x = a
      · subst hxa
        simp [hak]
      · simp [hxa]

theorem rlookup_rinsert (w : Registry) (k : Nat) (v : String) (x : Nat) :
    rlookup (rinsert w k v) x = if x = k then some v else rlookup w x := by
  simp only [rinsert, rlookup]
  by_cases h : x = k <;> simp [h, rlookup_rerase]

theorem rlookup_none_iff (w : Registry) (k : Nat) :
    rlookup w k = none ↔ ∀ p ∈ w, p.1 ≠ k := by
  induction w with
  | nil => simp [rlookup]
  | cons hd tl ih =>
    obtain ⟨a, b⟩ := hd
    simp only [rlookup, List.mem_cons]
    by_cases h : k = a
    · subst h
      simp
    · simp only [h, if_false, ih]
      constructor
      · rintro hall p (rfl | hp)
        · simpa using fun hx => h hx.symm
        · exact hall p hp
      · intro hall p hp
        exact hall p (Or.inr hp)

theorem rerase_eq_of_rlookup_none (w : Registry) (k : Nat)
    (h : rlookup w k = none) : rerase w k = w := by
  rw [rlookup_none_iff] at h
  apply List.filter_eq_self.2
  intro p hp
  simpa using h p hp

theorem rlookup_mem_snd (w : Registry) (k : Nat) (v : String)
    (h : rlookup w k = some v) : v ∈ w.map Prod.snd := by
  induction w with
  | nil => simp [rlookup] at h
  | cons hd tl ih =>
    obtain ⟨a, b⟩ := hd
    simp only [rlookup] at h
    by_cases hk : k = a
    · simp only [hk, if_true, Option.some.injEq] at h
      simp [h]
    · simp only [hk, if_false] at h
      simp [ih h]

/-! ## Lemmas about the watch-maintenance loop -/

theorem stepEvents_append (l1 l2 : List RawEvent) :
    ∀ (w : Registry) (c : Nat),
      stepEvents w c (l1 ++ l2) =
        (stepEvents w c l1).bind (fun p => stepEvents p.1 p.2 l2) := by
  induction l1 with
  | nil => intro w c; simp [stepEvents]
  | cons e es ih =>
    intro w c
    simp only [List.cons_append, stepEvents]
    cases h : stepEvent w c e with
    | none => simp
    | some p =>
      obtain ⟨w1, c1⟩ := p
      simp [ih]

theorem stepEvent_ctr_le (w : Registry) (c : Nat) (e : RawEvent) (w' : Registry) (c' : Nat)
    (h : stepEvent w c e = some (w', c')) : c ≤ c' := by
  unfold stepEvent at h
  split at h
  · cases hl : rlookup w e.wd <;> rw [hl] at h
    · exact absurd h (by simp)
    · simp only [Option.some.injEq, Prod.mk.injEq] at h
      omega
  · split at h <;> (simp only [Option.some.injEq, Prod.mk.injEq] at h; omega)

theorem stepEvents_ctr_le (l : List RawEvent) :
    ∀ (w : Registry) (c : Nat) (w' : Registry) (c' : Nat),
      stepEvents w c l = some (w', c') → c ≤ c' := by
  induction l with
  | nil =>
    intro w c w' c' h
    simp only [stepEvents, Option.some.injEq, Prod.mk.injEq] at h
    omega
  | cons e es ih =>
    intro w c w' c' h
    simp only [stepEvents] at h
    cases he : stepEvent w c e with
    | none => rw [he] at h; exact absurd h (by simp)
    | some p =>
      rw [he] at h
      obtain ⟨w1, c1⟩ := p
      exact le_trans (stepEvent_ctr_le w c e w1 c1 he) (ih w1 c1 w' c' h)

/-- A descriptor below the fresh counter that has no entry keeps having no
entry through the watch-maintenance loop: new entries use fresh (larger)
descriptors and pops only remove entries. -/
theorem stepEvents_preserves_none (k : Nat) (l : List RawEvent) :
    ∀ (w : Registry) (c : Nat) (w' : Registry) (c' : Nat),
      rlookup w k = none → k < c → stepEvents w c l = some (w', c') →
      rlookup w' k = none := by
  induction l with
  | nil =>
    intro w c w' c' hnone hk h
    simp only [stepEvents, Option.some.injEq, Prod.mk.injEq] at h
    rw [← h.1]; exact hnone
  | cons e es ih =>
    intro w c w' c' hnone hk h
    simp only [stepEvents] at h
    cases he : stepEvent w c e with
    | none => rw [he] at h; exact absurd h (by simp)
    | some p =>
      rw [he] at h
      obtain ⟨w1, c1⟩ := p
      have hc1 : c ≤ c1 := stepEvent_ctr_le w c e w1 c1 he
      apply ih w1 c1 w' c' _ (lt_of_lt_of_le hk hc1) h
      unfold stepEvent at he
      split at he
      · cases hl : rlookup w e.wd <;> rw [hl] at he
        · exact absurd he (by simp)
        · simp only [Option.some.injEq, Prod.mk.injEq] at he
          rw [← he.1, rlookup_rinsert]
          have : k ≠ c := Nat.ne_of_lt hk
          simp [this, hnone]
      · split at he <;> simp only [Option.some.injEq, Prod.mk.injEq] at he
        · rw [← he.1, rlookup_rerase]
          by_cases hkw : k = e.wd <;> simp [hkw, hnone]
        · rw [← he.1]; exact hnone

/-- An entry at a descriptor below the fresh counter and not targeted by any
event in the remaining batch survives the watch-maintenance loop. -/
theorem stepEvents_preserves_entry (k : Nat) (v : String) (l : List RawEvent) :
    ∀ (w : Registry) (c : Nat) (w' : Registry) (c' : Nat),
      rlookup w k = some v → k < c → (∀ e ∈ l, e.wd ≠ k) →
      stepEvents w c l = some (w', c') → rlookup w' k = some v := by
  induction l with
  | nil =>
    intro w c w' c' hsome hk _ h
    simp only [stepEvents, Option.some.injEq, Prod.mk.injEq] at h
    rw [← h.1]; exact hsome
  | cons e es ih =>
    intro w c w' c' hsome hk hwds h
    simp only [stepEvents] at h
    cases he : stepEvent w c e with
    | none => rw [he] at h; exact absurd h (by simp)
    | some p =>
      rw [he] at h
      obtain ⟨w1, c1⟩ := p
      have hc1 : c ≤ c1 := stepEvent_ctr_le w c e w1 c1 he
      apply ih w1 c1 w' c' _ (lt_of_lt_of_le hk hc1)
        (fun e' he' => hwds e' (List.mem_cons_of_mem e he')) h
      unfold stepEvent at he
      split at he
      · cases hl : rlookup w e.wd <;> rw [hl] at he
        · exact absurd he (by simp)
        · simp only [Option.some.injEq, Prod.mk.injEq] at he
          rw [← he.1, rlookup_rinsert]
          have : k ≠ c := Nat.ne_of_lt hk
          simp [this, hsome]
      · split at he <;> simp only [Option.some.injEq, Prod.mk.injEq] at he
        · rw [← he.1, rlookup_rerase]
          have : k ≠ e.wd := fun hkw => hwds e (List.mem_cons_self e es) hkw.symm
          simp [this, hsome]
        · rw [← he.1]; exact hsome

/-! ## `os.path.join` lemmas -/

theorem pyJoin_empty_left (b : String) : pyJoin "" b = b := by
  unfold pyJoin
  cases h : startsWithSlash b <;> simp [h]

/-! ## Claim theorems -/

/-- C5: `is_white_listed` (a pure function, hence deterministic) satisfies:
an empty or absent name is allowed; a name matching any allow-list glob is
allowed regardless of any deny-list match; a name matching a deny-list glob
but no allow-list glob is denied; a name matching neither list is allowed. -/
theorem C5_is_white_listed_cases (white_list black_list : List String) (name : String) :
    (name = "" → is_white_listed white_list black_list name = true)
    ∧ ((∃ pat ∈ white_list, fnmatch name pat = true) →
        is_white_listed white_list black_list name = true)
    ∧ (name ≠ "" → (∀ pat ∈ white_list, fnmatch name pat = false) →
        (∃ pat ∈ black_list, fnmatch name pat = true) →
        is_white_listed white_list black_list name = false)
    ∧ ((∀ pat ∈ white_list, fnmatch name pat = false) →
        (∀ pat ∈ black_list, fnmatch name pat = false) →
        is_white_listed white_list black_list name = true) := by
  refine ⟨fun h => by simp [is_white_listed, h], ?_, ?_, ?_⟩
  · rintro ⟨pat, hmem, hm⟩
    by_cases hn : name = ""
    · simp [is_white_listed, hn]
    · have hany : white_list.any (fun pat => fnmatch name pat) = true :=
        List.any_eq_true.2 ⟨pat, hmem, hm⟩
      simp [is_white_listed, hn, hany]
  · rintro hn hw ⟨pat, hmem, hm⟩
    have hwany : white_list.any (fun pat => fnmatch name pat) = false := by
      simp only [List.any_eq_false]
      intro x hx
      simp [hw x hx]
    have hbany : black_list.any (fun pat => fnmatch name pat) = true :=
      List.any_eq_true.2 ⟨pat, hmem, hm⟩
    simp [is_white_listed, hn, hwany, hbany]
  · intro hw hb
    by_cases hn : name = ""
    · simp [is_white_listed, hn]
    · have hwany : white_list.any (fun pat => fnmatch name pat) = false := by
        simp only [List.any_eq_false]
        intro x hx
        simp [hw x hx]
      have hbany : black_list.any (fun pat => fnmatch name pat) = false := by
        simp only [List.any_eq_false]
        intro x hx
        simp [hb x hx]
      simp [is_white_listed, hn, hwany, hbany]

/-- Witness for C5 at a concrete input: with allow `["task-*"]` and deny
`["*"]`, the name `"meta.json"` matches only the deny list and is denied. -/
theorem C5_is_white_listed_cases_witness :
    is_white_listed ["task-*"] ["*"] "meta.json" = false :=
  (C5_is_white_listed_cases ["task-*"] ["*"] "meta.json").2.2.1 (by decide) (by decide)
    ⟨"*", by decide, by decide⟩

/-- C6: scenario A — roots `["/w"]` (registry `{1 ↦ "/w"}` after startup),
allow `["task-*"]`, deny `["*"]`, debounce 0.  One notification burst with
the creation of directory `/w/task-1` followed by the creation of file
`meta.json` yields exactly one cycle whose change set is exactly
`{"/w/task-1"}`: filtering is by leaf name, so `"task-1"` passes the allow
list while `"meta.json"` matches only `"*"` and is excluded. -/
theorem C6_scenario_A :
    monitorYields ⟨["task-*"], ["*"], 0, [(1, "/w")], 2⟩
        [([⟨1, "task-1", true, true, false⟩, ⟨2, "meta.json", false, true, false⟩], [])] =
      some [["/w/task-1"]] := by
  decide

/-- C9: with a debounce window `delay > 0`, the collector blocks, sleeps
exactly once, then performs exactly one non-blocking drain whose events are
appended to the batch; the trace is a fixed function of `delay` alone, so the
drain is never re-armed by the events just collected.  With `delay = 0` there
is no sleep and no extra drain. -/
theorem C9_debounce (delay : Rat) (blocking debPending : List RawEvent) :
    (0 < delay →
        collectorTrace delay =
          [CollectorAction.blockingRead, CollectorAction.sleepFor delay,
            CollectorAction.drainRead]
        ∧ (collectorTrace delay).count CollectorAction.drainRead = 1
        ∧ (collectorTrace delay).count (CollectorAction.sleepFor delay) = 1
        ∧ collectBatch delay blocking debPending = blocking ++ debPending)
    ∧ (delay = 0 →
        collectorTrace delay = [CollectorAction.blockingRead]
        ∧ collectBatch delay blocking debPending = blocking) := by
  constructor
  · intro h
    have hne : delay ≠ 0 := ne_of_gt h
    refine ⟨by simp [collectorTrace, hne], ?_, ?_, by simp [collectBatch, hne]⟩
    · simp [collectorTrace, hne, List.count_cons]
    · simp [collectorTrace, hne, List.count_cons]
  · intro h
    subst h
    exact ⟨by simp [collectorTrace], by simp [collectBatch]⟩

/-- Witness for C9 at the concrete window `1`: one drain, one sleep, and the
drained events are appended. -/
theorem C9_debounce_witness :
    (collectorTrace 1).count CollectorAction.drainRead = 1
    ∧ collectBatch 1 [⟨1, "a", false, false, false⟩] [⟨1, "b", false, false, false⟩] =
        [⟨1, "a", false, false, false⟩, ⟨1, "b", false, false, false⟩] := by
  have h := (C9_debounce 1 [⟨1, "a", false, false, false⟩]
    [⟨1, "b", false, false, false⟩]).1 (by decide)
  exact ⟨h.2.1, h.2.2.2⟩

/-- C10: `ChangeMonitor.clear` never mutates the watch registry (or any other
monitor state): even when the drained events include directory-creation or
self-deletion events, the returned state is the input state, and the returned
set is computed purely by filtering, path-joining against the unchanged
registry, and deduplicating.  Only `__iter__` (`iterStep`) mutates the
registry. -/
theorem C10_clear_frame (s : MonState) (pending : List RawEvent) :
    (clear s pending).1 = s
    ∧ (clear s pending).1.watches = s.watches
    ∧ (clear s pending).2 =
        ((pending.filter (fun e => is_white_listed s.white_list s.black_list e.name)).map
            (changePath s.watches)).dedup :=
  ⟨rfl, rfl, rfl⟩

/-- The `for change in change_set:` loop of `Runner.do_run` up to the first
handler failure: the successful prefix is invoked, the failing path is
invoked, and the loop stops with the exception. -/
theorem runLoop_error {ε : Type} (f : String → Except ε Unit) (pre : List String) (c : String)
    (post : List String) (e : ε) (hpre : ∀ p ∈ pre, f p = Except.ok ())
    (hc : f c = Except.error e) :
    runLoop f (pre ++ c :: post) = (pre.map RunEvent.invoke ++ [RunEvent.invoke c], some e) := by
  induction pre with
  | nil => simp [runLoop, hc]
  | cons p ps ih =>
    have hp : f p = Except.ok () := hpre p (by simp)
    have ihh := ih (fun q hq => hpre q (List.mem_cons_of_mem p hq))
    simp [runLoop, hp, ihh]

/-- C1 counterexample: `Runner.do_run` has no `try` around the handler loop.
With change set `["a", "b"]` and a handler that raises on `"a"`, the run
consists of the begin-run report and the single invocation of `"a"`: `"b"` is
never invoked, no drain and no end-run report happen, and the exception
propagates — refuting the claim that handler errors never abort the cycle. -/
theorem C1_counterexample :
    do_run (fun c => if c = "a" then Except.error () else Except.ok ()) false
        ⟨[], [], 0, [], 0⟩ [] ["a", "b"] =
      ([RunEvent.beginRun ["a", "b"], RunEvent.invoke "a"], some ()) := by
  decide

/-- C1 (amended): if the handler raises for one path of the change set,
`Runner.do_run` stops there — the paths after it in iteration order are not
invoked, the end-of-cycle drain and end-run report are skipped, and the
exception propagates out of `do_run` (and hence out of `main_loop`, ending
all subsequent cycles). -/
theorem C1_handler_error_aborts (ε : Type) (f : String → Except ε Unit) (ie : Bool)
    (s : MonState) (runPending : List RawEvent) (pre : List String) (c : String)
    (post : List String) (e : ε) (hpre : ∀ p ∈ pre, f p = Except.ok ())
    (hc : f c = Except.error e) :
    do_run f ie s runPending (pre ++ c :: post) =
      (RunEvent.beginRun (pre ++ c :: post) ::
        (pre.map RunEvent.invoke ++ [RunEvent.invoke c]), some e) := by
  simp [do_run, runLoop_error f pre c post e hpre hc]

/-- Witness for C1 (amended) at a concrete input: handler raising on `"x"`
with one successful path before it and one never-reached path after it. -/
theorem C1_handler_error_aborts_witness :
    do_run (fun c => if c = "x" then Except.error 7 else Except.ok ()) true
        ⟨[], [], 0, [], 0⟩ [] (["u"] ++ "x" :: ["z"]) =
      (RunEvent.beginRun (["u"] ++ "x" :: ["z"]) ::
        (["u"].map RunEvent.invoke ++ [RunEvent.invoke "x"]), some 7) :=
  C1_handler_error_aborts Nat (fun c => if c = "x" then Except.error 7 else Except.ok ())
    true ⟨[], [], 0, [], 0⟩ [] ["u"] "x" ["z"] 7
    (by intro p hp; simp only [List.mem_singleton] at hp; subst hp; rfl) (by rfl)

/-- C2 counterexample: with allow `["task-*"]`, deny `["*"]` and a burst
containing only `meta.json` (which fails the filter), the main loop produces
no begin-run report, no handler invocation, no drain and no end-run report at
all — the monitor yields nothing, so the claimed "cycle bookkeeping" does not
happen.  The trace holds only the startup monitor-count report. -/
theorem C2_counterexample :
    main_loop (fun _ => (Except.ok () : Except Unit Unit)) false true
        ⟨["task-*"], ["*"], 0, [(1, "/w")], 2⟩ []
        [⟨[⟨1, "meta.json", false, true, false⟩], [], []⟩] =
      some ([RunEvent.monitorCount 1], none) := by
  decide

/-- C2 (amended): when no event of a batch survives the path filter,
`__iter__` yields nothing and mutates nothing: the monitor state is
unchanged, and the dispatcher performs zero handler invocations *and none of
the cycle's bookkeeping* for that batch — the loop simply proceeds to the
next wake-up, contributing nothing to the run trace. -/
theorem C2_no_survivor_no_cycle (ε : Type) (f : String → Except ε Unit) (ie : Bool)
    (s : MonState) (cyc : CycleInput) (rest : List CycleInput)
    (h : (collectBatch s.delay cyc.blocking cyc.debPending).filter
        (fun e => is_white_listed s.white_list s.black_list e.name) = []) :
    iterStep s cyc.blocking cyc.debPending = some (s, none)
    ∧ runCycles f ie s (cyc :: rest) = runCycles f ie s rest := by
  have h1 : iterStep s cyc.blocking cyc.debPending = some (s, none) := by
    simp [iterStep, h]
  exact ⟨h1, by simp [runCycles, h1]⟩

/-- Witness for C2 (amended) at a concrete input: the all-filtered batch of
the counterexample scenario skips the cycle entirely. -/
theorem C2_no_survivor_no_cycle_witness :
    iterStep ⟨["task-*"], ["*"], 0, [(1, "/w")], 2⟩ [⟨1, "meta.json", false, true, false⟩] [] =
      some (⟨["task-*"], ["*"], 0, [(1, "/w")], 2⟩, none) :=
  (C2_no_survivor_no_cycle Unit (fun _ => Except.ok ()) false
    ⟨["task-*"], ["*"], 0, [(1, "/w")], 2⟩
    ⟨[⟨1, "meta.json", false, true, false⟩], [], []⟩ [] (by decide)).1

/-- C3 counterexample: batch `[self-delete of wd 1, event "x" on wd 1]` with
registry `{1 ↦ "/w"}` and empty filter lists.  The maintenance loop purges
handle 1, and then the change-set computation *does* look handle 1 up again
(with the `''` default of `watches.get(event.wd, '')`), so the stale events
contribute `""` and the bare leaf name `"x"` — paths derived from the purged
handle — to the change set, refuting the claim. -/
theorem C3_counterexample :
    processBatch [] [] [(1, "/w")] 2
        [⟨1, "", false, false, true⟩, ⟨1, "x", false, false, false⟩] =
      some ([], 2, ["", "x"]) := by
  decide

/-- C3 (amended): after a handle's registry entry is purged, later change-set
computations in the same batch still query the mapping for that handle, with
an empty-string default; each surviving stale event on the purged handle
therefore contributes its bare leaf name (relative path) to the change set
instead of being kept out of it. -/
theorem C3_purged_handle_leaf_in_change_set (white_list black_list : List String)
    (w : Registry) (ctr : Nat) (events : List RawEvent) (w' : Registry) (ctr' : Nat)
    (cs : List String) (e : RawEvent)
    (hproc : processBatch white_list black_list w ctr events = some (w', ctr', cs))
    (he : e ∈ events.filter (fun ev => is_white_listed white_list black_list ev.name))
    (hpurged : rlookup w' e.wd = none) :
    changePath w' e = e.name ∧ e.name ∈ cs := by
  have hpath : changePath w' e = e.name := by
    simp [changePath, hpurged, pyJoin_empty_left]
  refine ⟨hpath, ?_⟩
  simp only [processBatch] at hproc
  cases hse : stepEvents w ctr
      (events.filter (fun ev => is_white_listed white_list black_list ev.name)) with
  | none => rw [hse] at hproc; exact absurd hproc (by simp)
  | some p =>
    rw [hse] at hproc
    obtain ⟨w1, c1⟩ := p
    simp only [Option.some.injEq, Prod.mk.injEq] at hproc
    obtain ⟨hw, _, hcs⟩ := hproc
    rw [← hcs, List.mem_dedup, hw, ← hpath]
    exact List.mem_map_of_mem (changePath w') he

/-- Witness for C3 (amended) at the concrete purged-handle batch: the stale
event's leaf name `"x"` is what enters the change set. -/
theorem C3_purged_handle_leaf_in_change_set_witness :
    changePath [] ⟨1, "x", false, false, false⟩ = "x" ∧ ("x" : String) ∈ ["", "x"] :=
  C3_purged_handle_leaf_in_change_set [] [] [(1, "/w")] 2
    [⟨1, "", false, false, true⟩, ⟨1, "x", false, false, false⟩] [] 2 ["", "x"]
    ⟨1, "x", false, false, false⟩ (by decide) (by decide) (by decide)

/-- C4: for a batch whose surviving events contain a self-deletion event `e`
for a watched directory's handle (a handle below the fresh-descriptor
counter, as every handle the mechanism has issued is), processing the batch
removes the handle's entry from the registry: a subsequent lookup returns no
path rather than the stale path, and re-processing the self-deletion against
the resulting registry is a no-op rather than an error (`pop(wd, None)` is
idempotent). -/
theorem C4_delete_self_removes (white_list black_list : List String) (w : Registry)
    (ctr : Nat) (events f1 f2 : List RawEvent) (e : RawEvent) (w' : Registry) (ctr' : Nat)
    (cs : List String)
    (hsplit : events.filter (fun ev => is_white_listed white_list black_list ev.name)
        = f1 ++ e :: f2)
    (hds : e.isDeleteSelf = true) (hnc : (e.isDir && e.isCreate) = false)
    (hwd : e.wd < ctr)
    (hproc : processBatch white_list black_list w ctr events = some (w', ctr', cs)) :
    rlookup w' e.wd = none ∧ stepEvent w' ctr' e = some (w', ctr') := by
  simp only [processBatch] at hproc
  rw [hsplit] at hproc
  cases hse : stepEvents w ctr (f1 ++ e :: f2) with
  | none => rw [hse] at hproc; exact absurd hproc (by simp)
  | some p =>
    rw [hse] at hproc
    obtain ⟨w1, c1⟩ := p
    simp only [Option.some.injEq, Prod.mk.injEq] at hproc
    obtain ⟨hw, hc, _⟩ := hproc
    rw [stepEvents_append] at hse
    rw [Option.bind_eq_some] at hse
    obtain ⟨⟨wa, ca⟩, hf1, hrest⟩ := hse
    simp only [stepEvents, stepEvent, hnc, hds, Bool.false_eq_true, if_false, if_true] at hrest
    have hca : ctr ≤ ca := stepEvents_ctr_le f1 w ctr wa ca hf1
    have hnone0 : rlookup (rerase wa e.wd) e.wd = none := by
      rw [rlookup_rerase]; simp
    have hnone1 : rlookup w1 e.wd = none :=
      stepEvents_preserves_none e.wd f2 (rerase wa e.wd) ca w1 c1 hnone0
        (lt_of_lt_of_le hwd hca) hrest
    have hnone : rlookup w' e.wd = none := by rw [← hw]; exact hnone1
    refine ⟨hnone, ?_⟩
    simp only [stepEvent, hnc, hds, Bool.false_eq_true, if_false, if_true]
    rw [rerase_eq_of_rlookup_none w' e.wd hnone]

/-- Witness for C4 at a concrete input: a batch holding just the
self-deletion of handle 1 leaves the registry without an entry for 1, and
re-processing that self-deletion is a no-op. -/
theorem C4_delete_self_removes_witness :
    rlookup [] (1 : Nat) = none
    ∧ stepEvent [] 2 ⟨1, "", false, false, true⟩ = some ([], 2) :=
  C4_delete_self_removes [] [] [(1, "/w")] 2 [⟨1, "", false, false, true⟩] [] []
    ⟨1, "", false, false, true⟩ [] 2 [""] (by decide) (by decide) (by decide) (by decide)
    (by decide)

/-- C7: for a surviving directory-creation event `e` under a watched parent
(the registry maps `e.wd` to `p` when `e`'s turn in the maintenance loop
comes), a watch for the child path is registered under a fresh descriptor
before the change set is computed: the final registry — the one the change
set is computed against, per the last conjunct — still maps that descriptor
to the child path, so later events on the child's subtree find it watched in
this and every later cycle. -/
theorem C7_dir_create_registered (white_list black_list : List String) (w : Registry)
    (ctr : Nat) (events f1 f2 : List RawEvent) (e : RawEvent) (wa : Registry) (ca : Nat)
    (p : String) (w' : Registry) (ctr' : Nat) (cs : List String)
    (hsplit : events.filter (fun ev => is_white_listed white_list black_list ev.name)
        = f1 ++ e :: f2)
    (hdc : (e.isDir && e.isCreate) = true)
    (hf1 : stepEvents w ctr f1 = some (wa, ca))
    (hparent : rlookup wa e.wd = some p)
    (hwds : ∀ ev ∈ events, ev.wd < ctr)
    (hproc : processBatch white_list black_list w ctr events = some (w', ctr', cs)) :
    rlookup w' ca = some (pyJoin p e.name)
    ∧ pyJoin p e.name ∈ w'.map Prod.snd
    ∧ cs = ((events.filter (fun ev => is_white_listed white_list black_list ev.name)).map
        (changePath w')).dedup := by
  simp only [processBatch] at hproc
  cases hse : stepEvents w ctr
      (events.filter (fun ev => is_white_listed white_list black_list ev.name)) with
  | none => rw [hse] at hproc; exact absurd hproc (by simp)
  | some q =>
    rw [hse] at hproc
    obtain ⟨w1, c1⟩ := q
    simp only [Option.some.injEq, Prod.mk.injEq] at hproc
    obtain ⟨hw, hc, hcs⟩ := hproc
    rw [hsplit, stepEvents_append, Option.bind_eq_some] at hse
    obtain ⟨⟨wb, cb⟩, hf1b, hrest⟩ := hse
    rw [hf1] at hf1b
    simp only [Option.some.injEq, Prod.mk.injEq] at hf1b
    obtain ⟨hwb, hcb⟩ := hf1b
    rw [← hwb, ← hcb] at hrest
    simp only [stepEvents, stepEvent, hdc, if_true, hparent] at hrest
    have hca : ctr ≤ ca := stepEvents_ctr_le f1 w ctr wa ca hf1
    have hentry0 : rlookup (rinsert wa ca (pyJoin p e.name)) ca = some (pyJoin p e.name) := by
      rw [rlookup_rinsert]; simp
    have hf2wds : ∀ ev ∈ f2, ev.wd ≠ ca := by
      intro ev hev
      have hev' : ev ∈ events := by
        apply List.mem_of_mem_filter (p := fun ev => is_white_listed white_list black_list ev.name)
        rw [hsplit]
        exact List.mem_append_right f1 (List.mem_cons_of_mem e hev)
      exact Nat.ne_of_lt (lt_of_lt_of_le (hwds ev hev') hca)
    have hentry1 : rlookup w1 ca = some (pyJoin p e.name) :=
      stepEvents_preserves_entry ca (pyJoin p e.name) f2 (rinsert wa ca (pyJoin p e.name))
        (ca + 1) w1 c1 hentry0 (Nat.lt_succ_self ca) hf2wds hrest
    have hentry : rlookup w' ca = some (pyJoin p e.name) := by rw [← hw]; exact hentry1
    rw [hw] at hcs
    exact ⟨hentry, rlookup_mem_snd w' ca (pyJoin p e.name) hentry, hcs.symm⟩

/-- Witness for C7 at a concrete input: creation of directory `task-1` under
the watched root `/w` registers `/w/task-1` under descriptor 2, and the
change set is computed against the registry that already holds it. -/
theorem C7_dir_create_registered_witness :
    rlookup [(2, "/w/task-1"), (1, "/w")] 2 = some (pyJoin "/w" "task-1")
    ∧ pyJoin "/w" "task-1" ∈ ([(2, "/w/task-1"), (1, "/w")] : Registry).map Prod.snd
    ∧ ["/w/task-1"] =
        ((([⟨1, "task-1", true, true, false⟩] : List RawEvent).filter
            (fun ev => is_white_listed ["task-*"] ["*"] ev.name)).map
          (changePath [(2, "/w/task-1"), (1, "/w")])).dedup :=
  C7_dir_create_registered ["task-*"] ["*"] [(1, "/w")] 2
    [⟨1, "task-1", true, true, false⟩] [] [] ⟨1, "task-1", true, true, false⟩
    [(1, "/w")] 2 "/w" [(2, "/w/task-1"), (1, "/w")] 3 ["/w/task-1"]
    (by decide) (by decide) (by decide) (by decide) (by decide) (by decide)

/-- Deduplicating a list does not change the finite set of its elements. -/
theorem dedup_toFinset {α : Type} [DecidableEq α] (l : List α) :
    l.dedup.toFinset = l.toFinset := by
  ext a
  simp [List.mem_toFinset, List.mem_dedup]

/-- C8 counterexample: with registry `{1 ↦ "/w"}` and empty filter lists, the
batch `[create dir "d" on 1, self-delete of 1]` yields the change set
`{"d", ""}` — but appending a *duplicate* of the directory-creation event
makes processing crash (`none`): the duplicate's parent lookup
`watches.get(1)` has no default on source line 114 and handle 1 was purged by
the self-delete, so `os.path.join(None, "d")` raises.  Duplicating a raw
event can thus change (indeed destroy) the resulting change set, refuting
the claim as stated. -/
theorem C8_counterexample :
    processBatch [] [] [(1, "/w")] 2
        [⟨1, "d", true, true, false⟩, ⟨1, "", false, false, true⟩] =
      some ([(2, "/w/d")], 3, ["d", ""])
    ∧ processBatch [] [] [(1, "/w")] 2
        [⟨1, "d", true, true, false⟩, ⟨1, "", false, false, true⟩,
          ⟨1, "d", true, true, false⟩] = none := by
  decide

/-- C8 (amended): for every batch that processes without error, the change
set lists each surviving path exactly once (it is the deduplicated image of
the surviving events); and appending a duplicate of an event already in the
batch leaves the change set unchanged *provided* the extended batch also
processes without error (and raw-event handles are below the fresh-descriptor
counter, as all mechanism-issued handles are).  Without the
processes-without-error proviso the duplicate can crash processing, as the
counterexample shows. -/
theorem C8_dedup_and_duplication (white_list black_list : List String)
    (w : Registry) (ctr : Nat) (events : List RawEvent) (e : RawEvent)
    (w2 : Registry) (ctr2 : Nat) (cs2 : List String) (w' : Registry) (ctr' : Nat)
    (cs : List String)
    (hproc : processBatch white_list black_list w ctr events = some (w', ctr', cs)) :
    (cs.Nodup
      ∧ ∀ q, q ∈ cs ↔
          q ∈ (events.filter (fun ev => is_white_listed white_list black_list ev.name)).map
            (changePath w'))
    ∧ (e ∈ events → (∀ ev ∈ events, ev.wd < ctr) →
        processBatch white_list black_list w ctr (events ++ [e]) = some (w2, ctr2, cs2) →
        cs2.toFinset = cs.toFinset) := by
  simp only [processBatch] at hproc
  cases hse : stepEvents w ctr
      (events.filter (fun ev => is_white_listed white_list black_list ev.name)) with
  | none => rw [hse] at hproc; exact absurd hproc (by simp)
  | some q =>
    rw [hse] at hproc
    obtain ⟨w1, c1⟩ := q
    simp only [Option.some.injEq, Prod.mk.injEq] at hproc
    obtain ⟨hw, hc, hcs⟩ := hproc
    rw [hw, hc] at hse
    rw [hw] at hcs
    constructor
    · refine ⟨?_, fun q0 => ?_⟩
      · rw [← hcs]; exact List.nodup_dedup _
      · rw [← hcs]; exact List.mem_dedup
    · intro hmem hwds hproc2
      have hewd : e.wd < ctr := hwds e hmem
      have hctr' : ctr ≤ ctr' := stepEvents_ctr_le _ w ctr w' ctr' hse
      simp only [processBatch, List.filter_append] at hproc2
      by_cases hpass : is_white_listed white_list black_list e.name = true
      · have hfe : List.filter (fun ev => is_white_listed white_list black_list ev.name) [e]
            = [e] := by simp [hpass]
        rw [hfe, stepEvents_append, hse] at hproc2
        simp only [Option.some_bind] at hproc2
        cases hstep : stepEvent w' ctr' e with
        | none =>
          simp only [stepEvents, hstep] at hproc2
          exact absurd hproc2 (by simp)
        | some r =>
          obtain ⟨wx, cx⟩ := r
          simp only [stepEvents, hstep] at hproc2
          simp only [Option.some.injEq, Prod.mk.injEq] at hproc2
          obtain ⟨hw2, hc2, hcs2⟩ := hproc2
          have hlook : ∀ d : Nat, d < ctr → rlookup wx d = rlookup w' d := by
            unfold stepEvent at hstep
            by_cases hdc : (e.isDir && e.isCreate) = true
            · rw [if_pos hdc] at hstep
              cases hpar : rlookup w' e.wd with
              | none => rw [hpar] at hstep; exact absurd hstep (by simp)
              | some pp =>
                rw [hpar] at hstep
                simp only [Option.some.injEq, Prod.mk.injEq] at hstep
                intro d hd
                rw [← hstep.1, rlookup_rinsert]
                have hne : d ≠ ctr' := Nat.ne_of_lt (lt_of_lt_of_le hd hctr')
                simp [hne]
            · rw [if_neg hdc] at hstep
              by_cases hds : e.isDeleteSelf = true
              · rw [if_pos hds] at hstep
                simp only [Option.some.injEq, Prod.mk.injEq] at hstep
                have hee : e ∈ events.filter
                    (fun ev => is_white_listed white_list black_list ev.name) :=
                  List.mem_filter.2 ⟨hmem, hpass⟩
                obtain ⟨g1, g2, hg⟩ := List.append_of_mem hee
                rw [hg, stepEvents_append, Option.bind_eq_some] at hse
                obtain ⟨⟨wg, cg⟩, hg1, hg2⟩ := hse
                have hbooldc : (e.isDir && e.isCreate) = false := by
                  cases hb : (e.isDir && e.isCreate)
                  · rfl
                  · exact absurd hb hdc
                simp only [stepEvents, stepEvent, hbooldc, hds, Bool.false_eq_true,
                  if_false, if_true] at hg2
                have hcg : ctr ≤ cg := stepEvents_ctr_le g1 w ctr wg cg hg1
                have hn0 : rlookup (rerase wg e.wd) e.wd = none := by
                  rw [rlookup_rerase]; simp
                have hn1 : rlookup w' e.wd = none :=
                  stepEvents_preserves_none e.wd g2 (rerase wg e.wd) cg w' ctr' hn0
                    (lt_of_lt_of_le hewd hcg) hg2
                intro d _
                rw [← hstep.1, rerase_eq_of_rlookup_none w' e.wd hn1]
              · rw [if_neg hds] at hstep
                simp only [Option.some.injEq, Prod.mk.injEq] at hstep
                intro d _
                rw [← hstep.1]
          have hmapeq :
              List.map (changePath wx)
                  (events.filter (fun ev => is_white_listed white_list black_list ev.name)
                    ++ [e]) =
                List.map (changePath w')
                    (events.filter (fun ev => is_white_listed white_list black_list ev.name))
                  ++ [changePath w' e] := by
            rw [List.map_append]
            congr 1
            · apply List.map_congr_left
              intro ev hev
              unfold changePath
              rw [hlook ev.wd (hwds ev (List.mem_of_mem_filter hev))]
            · simp only [List.map_cons, List.map_nil, List.cons.injEq, and_true]
              unfold changePath
              rw [hlook e.wd hewd]
          rw [← hcs2, ← hcs, hmapeq, dedup_toFinset, dedup_toFinset, List.toFinset_append]
          have hin : changePath w' e ∈
              List.map (changePath w')
                (events.filter (fun ev => is_white_listed white_list black_list ev.name)) :=
            List.mem_map_of_mem (changePath w') (List.mem_filter.2 ⟨hmem, hpass⟩)
          ext a
          simp only [Finset.mem_union, List.mem_toFinset, List.mem_singleton]
          constructor
          · rintro (h | rfl)
            · exact h
            · exact hin
          · exact Or.inl
      · have hfe : List.filter (fun ev => is_white_listed white_list black_list ev.name) [e]
            = [] := by
          simp only [List.filter_cons, List.filter_nil]
          rw [if_neg]
          simp [hpass]
        rw [hfe, List.append_nil, hse] at hproc2
        simp only [Option.some.injEq, Prod.mk.injEq] at hproc2
        rw [← hproc2.2.2, ← hcs]

/-- Witness for C8 (amended) at a concrete input: duplicating the sole event
of a one-event batch leaves the change set `{"/w/x"}` unchanged. -/
theorem C8_dedup_and_duplication_witness :
    (["/w/x"] : List String).Nodup
    ∧ (["/w/x"] : List String).toFinset = (["/w/x"] : List String).toFinset := by
  have h := C8_dedup_and_duplication [] [] [(1, "/w")] 2 [⟨1, "x", false, false, false⟩]
    ⟨1, "x", false, false, false⟩ [(1, "/w")] 2 ["/w/x"] [(1, "/w")] 2 ["/w/x"] (by decide)
  exact ⟨h.1.1, h.2 (by decide) (by decide) (by decide)⟩

end TrommonsChecker
